import Mathlib

/-!
Verification of the astad HTTP routing core (`src/http/router/route.ts`,
`src/http/router/router.ts`, `src/support/compose.ts`).

The TypeScript classes are shallowly embedded as Lean structures with explicit
state passing.  Handler and middleware functions are opaque to the router, so
they are represented by numeric identifiers.  JavaScript dictionaries
(`NodeJS.Dict`) are represented as association lists whose insert overwrites
in place, matching property-assignment semantics.  Methods that throw return
`Except String` (or pair the new state with an `Option String` when the source
mutates before throwing).
-/

set_option autoImplicit false

namespace Astad

/-- JavaScript regex class `\w`, i.e. `[A-Za-z0-9_]`. -/
def isWordChar (c : Char) : Bool := c.isAlpha || c.isDigit || c == '_'

/-- Character class `[A-Za-z0-9._-]` used for `:name` capture groups in
`HttpRoute.setRegex`. -/
def isParamChar (c : Char) : Bool :=
  c.isAlpha || c.isDigit || c == '.' || c == '_' || c == '-'

/-- Tokens of a compiled route pattern.  `HttpRoute.setRegex` builds
`^(expr)$` where `expr` is the path with every `:name` replaced by
`([A-Za-z0-9._-]+)` and every `*` replaced by `(.*)`; we keep the result as a
token list: literal characters, `:name` groups, and `*` groups. -/
inductive RTok where
  | lit (c : Char)
  | param
  | star
deriving Repr, DecidableEq

/-- Tokenization of a path template, mirroring the two global `replace` calls
of `HttpRoute.setRegex`: a `:` followed by at least one `\w` character becomes
a `param` group (consuming the maximal `\w` run, as the greedy `:\w+` does), a
`*` becomes a `star` group, anything else stays literal.  The `fuel` argument
only makes the recursion structural (every step consumes at least one
character, so `l.length` fuel always suffices). -/
def tokenizeFuel : Nat → List Char → List RTok
  | 0, _ => []
  | _ + 1, [] => []
  | fuel + 1, ':' :: rest =>
      if (rest.takeWhile isWordChar) = [] then RTok.lit ':' :: tokenizeFuel fuel rest
      else RTok.param :: tokenizeFuel fuel (rest.dropWhile isWordChar)
  | fuel + 1, '*' :: rest => RTok.star :: tokenizeFuel fuel rest
  | fuel + 1, c :: rest => RTok.lit c :: tokenizeFuel fuel rest

def tokenize (l : List Char) : List RTok := tokenizeFuel l.length l

/-- Parameter names extracted by `HttpRoute.setPathParamKeys` via
`path.match(/:\w+/g)`, with the leading `:` stripped, in order.  Fuel as in
`tokenizeFuel`. -/
def paramKeysOfFuel : Nat → List Char → List String
  | 0, _ => []
  | _ + 1, [] => []
  | fuel + 1, ':' :: rest =>
      if (rest.takeWhile isWordChar) = [] then paramKeysOfFuel fuel rest
      else String.mk (rest.takeWhile isWordChar) ::
        paramKeysOfFuel fuel (rest.dropWhile isWordChar)
  | fuel + 1, _ :: rest => paramKeysOfFuel fuel rest

def paramKeysOf (l : List Char) : List String := paramKeysOfFuel l.length l

/-- How a literal pattern character matches an input character.  In the
generated regex a literal `.` is the regex metacharacter matching any
character except a newline; route templates in this repository contain no
other regex metacharacters, so every other literal matches only itself. -/
def litMatches (c d : Char) : Bool := if c == '.' then d != '\n' else c == d

/-- Anchored greedy backtracking matcher for a compiled pattern against the
whole input (the regex is `^(expr)$`).  On success it returns the texts of the
inner capture groups in order (i.e. JavaScript `matched[2], matched[3], ...`;
`matched[1]` is the outer group holding the whole input).  Greediness of `+`
and `*` is realized by trying the longest candidate capture first: a `param`
group tries prefixes of the maximal `[A-Za-z0-9._-]` run from longest down to
one character, a `star` group tries prefixes of the maximal non-newline run
from longest down to the empty capture. -/
def matchToks : List RTok → List Char → Option (List (List Char))
  | [], cs => if cs = [] then some [] else none
  | RTok.lit c :: ts, cs =>
      match cs with
      | [] => none
      | d :: ds => if litMatches c d then matchToks ts ds else none
  | RTok.param :: ts, ds =>
      let maxRun := (ds.takeWhile isParamChar).length
      ((List.range maxRun).reverse.map (· + 1)).findSome? (fun k =>
        (matchToks ts (ds.drop k)).map (fun caps => ds.take k :: caps))
  | RTok.star :: ts, ds =>
      let maxRun := (ds.takeWhile (fun c => c != '\n')).length
      ((List.range (maxRun + 1)).reverse).findSome? (fun k =>
        (matchToks ts (ds.drop k)).map (fun caps => ds.take k :: caps))

/-- True when `"null"` occurs as a substring.  JavaScript's
`path.match(this.regex)` with `this.regex === null` (the case of a static
route, whose regex is never compiled) coerces `null` to the regex `/null/`,
so it succeeds exactly when the path contains the substring `null`, with no
capture groups. -/
def startsWithNull : List Char → Bool
  | 'n' :: 'u' :: 'l' :: 'l' :: _ => true
  | _ => false

def hasNullSubstring : List Char → Bool
  | [] => false
  | c :: rest => startsWithNull (c :: rest) || hasNullSubstring rest

/-- Association-list rendering of a JavaScript dictionary write `d[k] = v`:
overwrite in place if the key exists, else append. -/
def dictInsert {α : Type} (d : List (String × α)) (k : String) (v : α) : List (String × α) :=
  if d.any (fun p => p.1 == k) then d.map (fun p => if p.1 == k then (k, v) else p)
  else d ++ [(k, v)]

/-- Dictionary read `d[k]`: the unique binding of `k` (inserts overwrite, so
first match suffices). -/
def dictGet {α : Type} : List (String × α) → String → Option α
  | [], _ => none
  | p :: d, k => if p.1 == k then some p.2 else dictGet d k

/-- JavaScript `s.endsWith('/')`, i.e. the last character is a slash. -/
def lastIsSlash (s : String) : Bool := s.data.getLast? == some '/'

/-- JavaScript `s.slice(0, s.length - 1)`: drop the final character. -/
def dropLastChar (s : String) : String := String.mk s.data.dropLast

/-- JavaScript `s[0] === '/'`. -/
def headIsSlash (s : String) : Bool := s.data.head? == some '/'

/-- `Array.prototype.join(',')`, the string a JavaScript array coerces to when
loosely compared with a string. -/
def joinComma : List String → String
  | [] => ""
  | [x] => x
  | x :: y :: t => x ++ "," ++ joinComma (y :: t)

/-- The `HttpRoute` class of `src/http/router/route.ts`.  `handler` and the
entries of `middlewares` are opaque function identifiers. -/
structure HttpRoute where
  methods : List String
  path : String
  _static : Bool
  regex : Option (List RTok)
  paramKeys : List String
  _name : String
  handler : Nat
  middlewares : List Nat
  metadata : List (String × String)
deriving Repr, DecidableEq

/-- `HttpRoute.setPathParamKeys`: recompute `paramKeys` from the path; clear
`_static` when the path has `:name` keys or contains `*` (note the source only
ever lowers `_static`, it never resets it to `true`). -/
def HttpRoute.setPathParamKeys (r : HttpRoute) : HttpRoute :=
  let keys := paramKeysOf r.path.data
  let anyTok := r.path.data.contains '*'
  let r := { r with paramKeys := keys }
  let r := if keys ≠ [] then { r with _static := false } else r
  if anyTok then { r with _static := false } else r

/-- `HttpRoute.setRegex`: compile the pattern only for non-static routes; a
static route keeps its `regex` untouched (`null` for a fresh route). -/
def HttpRoute.setRegex (r : HttpRoute) : HttpRoute :=
  if !r._static then { r with regex := some (tokenize r.path.data) } else r

/-- `HttpRoute.setPath`: store the path, strip one trailing slash unless the
path is exactly `/`, set the default name, then recompute keys and regex. -/
def HttpRoute.setPath (r : HttpRoute) (path : String) : HttpRoute :=
  let r := { r with path := path }
  let r := if r.path ≠ "/" ∧ lastIsSlash r.path then { r with path := dropLastChar r.path } else r
  let r := { r with _name := r.path }
  r.setPathParamKeys.setRegex

/-- The `HttpRoute` constructor: fields start at their declared initializers
(`_static = true`, `regex = null`, empty keys/middlewares), then `setPath`
runs. -/
def HttpRoute.new (methods : List String) (path : String) (handler : Nat)
    (metadata : List (String × String)) : HttpRoute :=
  HttpRoute.setPath
    { methods := methods, path := "", _static := true, regex := none, paramKeys := [],
      _name := "", handler := handler, middlewares := [], metadata := metadata } path

/-- `HttpRoute.middleware(...fns)`: push each function onto the local list. -/
def HttpRoute.middleware (r : HttpRoute) (mws : List Nat) : HttpRoute :=
  { r with middlewares := r.middlewares ++ mws }

/-- `HttpRoute.as(name)`. -/
def HttpRoute.as (r : HttpRoute) (name : String) : HttpRoute :=
  { r with _name := name }

/-- `HttpRoute.isStatic()`. -/
def HttpRoute.isStatic (r : HttpRoute) : Bool := r._static

/-- `HttpRoute.clone()`: a fresh route from the same methods, path, handler
and metadata, with the middleware list and name copied over. -/
def HttpRoute.clone (r : HttpRoute) : HttpRoute :=
  ((HttpRoute.new r.methods r.path r.handler r.metadata).middleware r.middlewares).as r._name

/-- `HttpRoute.matchMethod(method)`: the loose comparison
`this.methods == '*'` coerces the array to its comma-joined string, so it
holds exactly for the one-element wildcard list; otherwise scan for an exact
method hit or the `GET`-route-serves-`HEAD` fallback. -/
def HttpRoute.matchMethod (r : HttpRoute) (method : String) : Bool :=
  if joinComma r.methods == "*" then true
  else r.methods.any (fun rMethod => rMethod == method || (rMethod == "GET" && method == "HEAD"))

/-- The parameter-write loop of `HttpRoute.match`: for
`i = 2 .. matched.length - 1`, `params[this.paramKeys[i - 2]] = matched[i]`.
An out-of-range `paramKeys` read yields `undefined`, which as a property key
is the string `"undefined"`. -/
def writeParams (keys : List String) : Nat → List (List Char) → List (String × String) → List (String × String)
  | _, [], params => params
  | j, cap :: rest, params =>
      writeParams keys (j + 1) rest (dictInsert params (keys.getD j "undefined") (String.mk cap))

/-- `HttpRoute.match(path, params)` (named `matchPath` here because `match` is
a Lean keyword): exact path equality short-circuits to true; otherwise run the
compiled matcher — which for a static route is `null` and therefore coerces to
the regex `/null/` with no capture groups — and on success write the captured
parameters. -/
def HttpRoute.matchPath (r : HttpRoute) (path : String) (params : List (String × String)) :
    Bool × List (String × String) :=
  if r.path = path then (true, params)
  else
    match r.regex with
    | none => (hasNullSubstring path.data, params)
    | some toks =>
        match matchToks toks path.data with
        | none => (false, params)
        | some caps => (true, writeParams r.paramKeys 0 caps params)

/-- The `HttpRouter` class of `src/http/router/router.ts`.  `_pfx` is the
source field `_` ++ `pre` ++ `fix` (that word cannot appear in an identifier
here); it holds the normalized option value: the constructor replaces a bare
`/` by the empty string. -/
structure HttpRouter where
  routes : List HttpRoute
  _pfx : String
  middlewares : List Nat
  staticRoutes : List (String × HttpRoute)
deriving Repr, DecidableEq

/-- The `HttpRouter` constructor together with `configureRouterOpts`: validate
the option (a falsy, i.e. empty, string skips validation), then normalize `/`
to the empty string.  The default option value is `/`. -/
def HttpRouter.new (pfx : String) (mws : List Nat) : Except String HttpRouter :=
  if pfx ≠ "" ∧ ¬ headIsSlash pfx then
    Except.error ("Prefix " ++ pfx ++ " must start with slash(/).")
  else if pfx ≠ "" ∧ pfx.length > 1 ∧ lastIsSlash pfx then
    Except.error ("Prefix " ++ pfx ++ " must not end with slash(/).")
  else
    Except.ok { routes := [], _pfx := if pfx = "/" then "" else pfx,
                middlewares := mws, staticRoutes := [] }

/-- A default-constructed router, `new HttpRouter({})` (option `/`, no
middleware). -/
def HttpRouter.empty : HttpRouter :=
  { routes := [], _pfx := "", middlewares := [], staticRoutes := [] }

/-- `HttpRouter.makePath(path)`. -/
def HttpRouter.makePath (router : HttpRouter) (path : String) : String :=
  if router._pfx = "" then path
  else if router._pfx = "/" ∧ headIsSlash path then path
  else router._pfx ++ path

/-- `HttpRouter.static(route)`: index a static route under `method + path` for
every one of its methods. -/
def HttpRouter.static (router : HttpRouter) (route : HttpRoute) : HttpRouter :=
  if route.isStatic then
    { router with
        staticRoutes := route.methods.foldl
          (fun d method => dictInsert d (method ++ route.path) route) router.staticRoutes }
  else router

/-- `HttpRouter.add(method, path, handler)`: validate the path, build the
route from the full path, attach the router's accumulated middleware, append
to the ordered list and index statically. -/
def HttpRouter.add (router : HttpRouter) (method : String) (path : String) (handler : Nat) :
    Except String HttpRouter :=
  if ¬ headIsSlash path then
    Except.error ("Path " ++ path ++ " must start with slash(/).")
  else if path.length > 1 ∧ lastIsSlash path then
    Except.error ("Path " ++ path ++ " must not end with slash(/).")
  else
    let route := HttpRoute.new [method] (router.makePath path) handler []
    let route := if router.middlewares.length ≠ 0 then route.middleware router.middlewares else route
    Except.ok (HttpRouter.static { router with routes := router.routes ++ [route] } route)

/-- `HttpRouter.addRoute(route)`. -/
def HttpRouter.addRoute (router : HttpRouter) (route : HttpRoute) : HttpRouter :=
  HttpRouter.static { router with routes := router.routes ++ [route] } route

/-- `HttpRouter.mergeRouters(routers, options)`.  With `options.merge` set the
source executes `this.addRoute(route); return;` inside the nested loops, so it
adds the first route of the first non-empty router and then returns from the
whole function.  Without it, every route is cloned, reprefixed (the option
value first, then this router's own `_pfx`; a falsy — empty — option value is
replaced by `_pfx` alone; a result of `/` or empty collapses to empty), has a
trailing slash stripped and is appended. -/
def HttpRouter.mergeRouters (self : HttpRouter) (routers : List HttpRouter)
    (opfx : Option String) (merge : Bool) : HttpRouter :=
  match routers with
  | [] => self
  | router :: rest =>
      if merge then
        match router.routes with
        | [] => self.mergeRouters rest opfx merge
        | route :: _ => self.addRoute route
      else
        let self' := router.routes.foldl (fun acc route =>
          let nroute := route.clone
          let pfx := match opfx with
            | some p => if p ≠ "" then p ++ acc._pfx else acc._pfx
            | none => acc._pfx
          let pfx := if pfx = "" ∨ pfx = "/" then "" else pfx
          let routePath := pfx ++ nroute.path
          let routePath := if lastIsSlash routePath then dropLastChar routePath else routePath
          acc.addRoute (nroute.setPath routePath)) self
        self'.mergeRouters rest opfx merge

/-- The single-middleware-function branch of `HttpRouter.use(...args)`
(`args.length === 1`, `typeof what == 'function'`): push the function onto the
router's middleware list and onto every existing route's local list — the
static index holds references to those same route objects, so it sees the
mutation too — and then fall through to the unconditional
`throw new Error(...)` at the end of the branch (the source has no `return`
after the function case).  The thrown message is returned alongside the
mutated state, since in JavaScript the mutations survive the throw. -/
def HttpRouter.useFn (router : HttpRouter) (fn : Nat) : HttpRouter × Option String :=
  let router := { router with middlewares := router.middlewares ++ [fn] }
  let router :=
    if router.routes.length ≠ 0 then
      { router with
          routes := router.routes.map (fun route => route.middleware [fn]),
          staticRoutes := router.staticRoutes.map (fun p => (p.1, p.2.middleware [fn])) }
    else router
  (router, some "Expects an instance of Router or a CallableFunction for middleware.")

/-- The single-router branch of `HttpRouter.use`. -/
def HttpRouter.useRouter (router : HttpRouter) (other : HttpRouter) : HttpRouter :=
  router.mergeRouters [other] none false

/-- The `use(pfx, [mergeFlag,] ...routers)` branch of `HttpRouter.use`
(`args.length >= 2` with a boolean second argument when `merge` is true). -/
def HttpRouter.useMany (router : HttpRouter) (pfx : String) (merge : Bool)
    (routers : List HttpRouter) : HttpRouter :=
  router.mergeRouters routers (some pfx) merge

/-- The linear-scan loop of `HttpRouter.find`: for each route in registration
order, evaluate `route.match(path, params)` first — its parameter writes land
in `params` whether or not the route is ultimately chosen — and return the
first route for which both the path match and `matchMethod` succeed. -/
def HttpRouter.findScan : List HttpRoute → String → String → List (String × String) →
    Option HttpRoute × List (String × String)
  | [], _, _, params => (none, params)
  | r :: rs, method, path, params =>
      let res := r.matchPath path params
      if res.1 ∧ r.matchMethod method then (some r, res.2)
      else HttpRouter.findScan rs method path res.2

/-- `HttpRouter.find(method, path, params)`: strip one trailing slash (the
source does this even when the path is exactly `/`), try the static index
under `method + path`, then fall back to the linear scan.  The source's
`return false` sentinel is `none`. -/
def HttpRouter.find (router : HttpRouter) (method : String) (path : String)
    (params : List (String × String)) : Option HttpRoute × List (String × String) :=
  let path := if lastIsSlash path then dropLastChar path else path
  match dictGet router.staticRoutes (method ++ path) with
  | some r => (some r, params)
  | none => HttpRouter.findScan router.routes method path params

/-- Modelled from the spec: the hypothetical forced linear scan of
`find(method, path)` — same normalization, no static index, first route whose
`match` and `matchMethod` both succeed. -/
def HttpRouter.findLinear (router : HttpRouter) (method : String) (path : String)
    (params : List (String × String)) : Option HttpRoute × List (String × String) :=
  let path := if lastIsSlash path then dropLastChar path else path
  HttpRouter.findScan router.routes method path params

/-- Run a sequence of `add` registrations (method, path, handler). -/
def regAll (router : HttpRouter) : List (String × String × Nat) → Except String HttpRouter
  | [] => Except.ok router
  | (m, p, h) :: rest =>
      match router.add m p h with
      | Except.ok router' => regAll router' rest
      | Except.error e => Except.error e

/-- Registrations starting from the default router, defaulting to the empty
router on a registration error (all concrete uses below register valid
paths). -/
def regAllD (regs : List (String × String × Nat)) : HttpRouter :=
  match regAll HttpRouter.empty regs with
  | Except.ok r => r
  | Except.error _ => HttpRouter.empty

/-- Middleware stages for the `composeAsync` model (`src/support/compose.ts`).
A stage logs `name-enter`, awaits its continuation once (`simple`) or twice in
sequence (`doubleNext`), and logs `name-exit`; an awaited rejection propagates
and skips the exit log, exactly as `await next()` rethrows inside an `async`
function. -/
inductive MW where
  | simple (name : String)
  | doubleNext (name : String)
deriving Repr, DecidableEq

/-- State of one dispatch: the `index` cursor (initialized to `-1`) and the
observation log written by the stages through the context. -/
structure CState where
  index : Int
  log : List String
deriving Repr, DecidableEq

/-- The `dispatch(i)` closure of `composeAsync`: reject with
`next() called multiple times` when `i <= index`, else advance the cursor and
run stage `i`, the terminal continuation at `i = stages.length` (resolving
immediately when it is absent), or resolve when past the end.  The `fuel`
argument only bounds the recursion depth; every run below gets enough. -/
def dispatch (stages : List MW) (terminal : Option String) :
    Nat → Nat → CState → Except String Unit × CState
  | 0, _, s => (Except.error "out of fuel", s)
  | fuel + 1, i, s =>
      if (i : Int) ≤ s.index then (Except.error "next() called multiple times", s)
      else
        let s := { s with index := (i : Int) }
        if h : i < stages.length then
          match stages.get ⟨i, h⟩ with
          | MW.simple n =>
              let s := { s with log := s.log ++ [n ++ "-enter"] }
              let res := dispatch stages terminal fuel (i + 1) s
              match res.1 with
              | Except.error e => (Except.error e, res.2)
              | Except.ok _ => (Except.ok (), { res.2 with log := res.2.log ++ [n ++ "-exit"] })
          | MW.doubleNext n =>
              let s := { s with log := s.log ++ [n ++ "-enter"] }
              let res := dispatch stages terminal fuel (i + 1) s
              match res.1 with
              | Except.error e => (Except.error e, res.2)
              | Except.ok _ =>
                  let res2 := dispatch stages terminal fuel (i + 1) res.2
                  match res2.1 with
                  | Except.error e => (Except.error e, res2.2)
                  | Except.ok _ =>
                      (Except.ok (), { res2.2 with log := res2.2.log ++ [n ++ "-exit"] })
        else if i = stages.length then
          match terminal with
          | some t => (Except.ok (), { s with log := s.log ++ [t] })
          | none => (Except.ok (), s)
        else (Except.ok (), s)

/-- Invoking the dispatcher returned by `composeAsync(stages)` on a fresh
context with a terminal continuation: a fresh `index = -1` cursor, then
`dispatch(0)`. -/
def composeRun (stages : List MW) (terminal : Option String) : Except String Unit × CState :=
  dispatch stages terminal (2 * stages.length + 8) 0 { index := -1, log := [] }

/-- The fully-static route value produced by registering `(m, p, h)` on a
default router when `p` carries no `:name` or `*` token and no trailing
slash. -/
def mkStaticRoute (m p : String) (h : Nat) : HttpRoute :=
  { methods := [m], path := p, _static := true, regex := none, paramKeys := [],
    _name := p, handler := h, middlewares := [], metadata := [] }

/-- A registration (method, path, handler) whose path is static-shaped and
avoids the trailing-slash, root-path and `null`-substring pitfalls of `find`
and of the uncompiled (null) matcher. -/
def staticRegOk (p : String) : Bool :=
  headIsSlash p && !lastIsSlash p && (paramKeysOf p.data).isEmpty &&
    !p.data.contains '*' && !hasNullSubstring p.data

/-- The route list a sequence of static registrations produces. -/
def mkStaticRoutes (regs : List (String × String × Nat)) : List HttpRoute :=
  regs.map (fun r => mkStaticRoute r.1 r.2.1 r.2.2)

/-- The static index a sequence of static registrations produces. -/
def mkStaticDict (d : List (String × HttpRoute)) (regs : List (String × String × Nat)) :
    List (String × HttpRoute) :=
  regs.foldl (fun d r => dictInsert d (r.1 ++ r.2.1) (mkStaticRoute r.1 r.2.1 r.2.2)) d

/-- Concrete router for claim C1: one `GET /a` route. -/
def c1router : HttpRouter := regAllD [("GET", "/a", 7)]

/-- Concrete child router for claim C2: two routes. -/
def c2child : HttpRouter := regAllD [("GET", "/a", 1), ("GET", "/b", 2)]

/-- Concrete router for claim C3: a root route and a static item route. -/
def c3router : HttpRouter := regAllD [("GET", "/", 1), ("GET", "/items/1", 2)]

/-- Concrete registrations for claim C4's counterexample: a dynamic route
registered before a static one that the static index bypasses. -/
def c4cexRegs : List (String × String × Nat) := [("GET", "/:x", 1), ("GET", "/a", 2)]

/-- Concrete registrations for claim C4's witness. -/
def c4regs : List (String × String × Nat) := [("GET", "/a", 1), ("POST", "/b", 2)]

/-- Concrete static route for claim C5. -/
def c5route : HttpRoute := HttpRoute.new ["GET"] "/id" 0 []

/-- Concrete two-parameter route for claim C8. -/
def c8route : HttpRoute := HttpRoute.new ["GET"] "/users/:id/posts/:postId" 0 []

/-- Concrete wildcard route for claim C9. -/
def c9route : HttpRoute := HttpRoute.new ["GET"] "/files/*" 0 []

/-- Concrete router for claim C10: two dynamic routes with distinct parameter
names and methods. -/
def c10router : HttpRouter := regAllD [("POST", "/:x", 1), ("GET", "/:y", 2)]

/-- Unfolding lemma for `dictGet` on a cons cell. -/
theorem dictGet_cons {α : Type} (p : String × α) (d : List (String × α)) (k : String) :
    dictGet (p :: d) k = if p.1 == k then some p.2 else dictGet d k := rfl

/-- Overwriting every binding of `k` leaves other lookups unchanged. -/
theorem dictGet_map_overwrite_ne {α : Type} (d : List (String × α)) (k k' : String) (v : α)
    (hne : k' ≠ k) :
    dictGet (d.map (fun p => if p.1 == k then (k, v) else p)) k' = dictGet d k' := by
  induction d with
  | nil => rfl
  | cons p d ih =>
      by_cases hp : p.1 = k
      · have h1 : ¬ (k = k') := fun h => hne h.symm
        have h2 : ¬ (p.1 = k') := by rw [hp]; exact h1
        simpa [dictGet_cons, hp, h1, h2] using ih
      · by_cases hpk' : p.1 = k'
        · simp [dictGet_cons, hp, hpk', hne]
        · simpa [dictGet_cons, hp, hpk'] using ih

/-- Overwriting every binding of a present key makes its lookup the new
value. -/
theorem dictGet_map_overwrite_self {α : Type} (d : List (String × α)) (k : String) (v : α)
    (hmem : (d.any fun p => p.1 == k) = true) :
    dictGet (d.map (fun p => if p.1 == k then (k, v) else p)) k = some v := by
  induction d with
  | nil => simp at hmem
  | cons p d ih =>
      by_cases hp : p.1 = k
      · simp [dictGet_cons, hp]
      · have hmem' : (d.any fun q => q.1 == k) = true := by
          simp only [List.any_cons, Bool.or_eq_true, beq_iff_eq] at hmem
          rcases hmem with h1 | h2
          · exact absurd h1 hp
          · simpa using h2
        simpa [dictGet_cons, hp] using ih hmem'

/-- Appending a fresh binding makes its lookup the new value when the key was
absent. -/
theorem dictGet_append_single_self {α : Type} (d : List (String × α)) (k : String) (v : α)
    (habs : (d.any fun p => p.1 == k) = false) :
    dictGet (d ++ [(k, v)]) k = some v := by
  induction d with
  | nil => simp [dictGet_cons, dictGet]
  | cons p d ih =>
      have hsplit : (p.1 == k) = false ∧ (d.any fun q => q.1 == k) = false := by
        have h0 := habs
        simp only [List.any_cons, Bool.or_eq_false_iff] at h0
        exact h0
      have hp : ¬ (p.1 = k) := by simpa using hsplit.1
      simp [dictGet_cons, hp, ih hsplit.2]

/-- Appending a binding for another key leaves a lookup unchanged. -/
theorem dictGet_append_single_ne {α : Type} (d : List (String × α)) (k k' : String) (v : α)
    (hne : k' ≠ k) : dictGet (d ++ [(k, v)]) k' = dictGet d k' := by
  induction d with
  | nil =>
      have h1 : ¬ (k = k') := fun h => hne h.symm
      simp [dictGet_cons, dictGet, h1]
  | cons p d ih =>
      by_cases hpk' : p.1 = k'
      · simp [dictGet_cons, hpk']
      · simp [dictGet_cons, hpk', ih]

/-- Looking up the freshly inserted key returns the inserted value. -/
theorem dictGet_dictInsert_self {α : Type} (d : List (String × α)) (k : String) (v : α) :
    dictGet (dictInsert d k v) k = some v := by
  unfold dictInsert
  split
  · rename_i hany
    exact dictGet_map_overwrite_self d k v hany
  · rename_i hany
    exact dictGet_append_single_self d k v (Bool.eq_false_iff.mpr hany)

/-- Looking up a different key is unaffected by an insert. -/
theorem dictGet_dictInsert_ne {α : Type} (d : List (String × α)) (k k' : String) (v : α)
    (hne : k' ≠ k) : dictGet (dictInsert d k v) k' = dictGet d k' := by
  unfold dictInsert
  split
  · exact dictGet_map_overwrite_ne d k k' v hne
  · exact dictGet_append_single_ne d k k' v hne

/-- Array `join(',')` equals `"*"` exactly for the one-element list
`["*"]`. -/
theorem joinComma_eq_star_iff (l : List String) : joinComma l = "*" ↔ l = ["*"] := by
  match l with
  | [] => decide
  | [x] =>
      simp [joinComma]
  | x :: y :: t =>
      constructor
      · intro hj
        exfalso
        have hlen := congrArg String.length hj
        simp only [joinComma, String.length_append] at hlen
        have hx : x.length = 0 := by
          have : ("," : String).length = 1 := rfl
          have : ("*" : String).length = 1 := rfl
          omega
        have hz : (joinComma (y :: t)).length = 0 := by
          have : ("," : String).length = 1 := rfl
          have : ("*" : String).length = 1 := rfl
          omega
        have hxe : x = "" := by
          cases x with
          | mk data => cases data with
            | nil => rfl
            | cons c cs => simp [String.length] at hx
        have hze : joinComma (y :: t) = "" := by
          cases hzz : joinComma (y :: t) with
          | mk data => cases data with
            | nil => rfl
            | cons c cs => rw [hzz] at hz; simp [String.length] at hz
        simp only [joinComma] at hj
        rw [hxe, hze] at hj
        exact absurd hj (by decide)
      · intro hl
        exact absurd hl (by simp)

/-- Registering a pitfall-free static path builds exactly the plain static
route value. -/
theorem new_static_route (m p : String) (h : Nat) (hok : staticRegOk p = true) :
    HttpRoute.new [m] p h [] = mkStaticRoute m p h := by
  have hconj := hok
  simp only [staticRegOk, Bool.and_eq_true, Bool.not_eq_true', decide_eq_true_eq] at hconj
  obtain ⟨⟨⟨⟨hhead, hlast⟩, hkeys⟩, hstarc⟩, hnull⟩ := hconj
  have hkeys' : paramKeysOf p.data = [] := List.isEmpty_iff.mp hkeys
  have hstarc' : ¬ ('*' ∈ p.data) := by simpa using hstarc
  unfold HttpRoute.new HttpRoute.setPath HttpRoute.setPathParamKeys HttpRoute.setRegex
  simp [hlast, hkeys', hstarc', mkStaticRoute]

/-- A static route's `matchMethod` succeeds on its own method. -/
theorem mkStaticRoute_matchMethod_self (m p : String) (h : Nat) :
    (mkStaticRoute m p h).matchMethod m = true := by
  unfold HttpRoute.matchMethod mkStaticRoute
  split
  · rfl
  · simp

/-- A static route matches its own path without writing parameters. -/
theorem mkStaticRoute_matchPath_self (m p : String) (h : Nat)
    (params : List (String × String)) :
    (mkStaticRoute m p h).matchPath p params = (true, params) := by
  unfold HttpRoute.matchPath mkStaticRoute
  simp

/-- A static route rejects a different path that avoids the `null`
substring (the uncompiled matcher is `null`, coerced to `/null/`). -/
theorem mkStaticRoute_matchPath_other (m p0 p : String) (h : Nat)
    (params : List (String × String)) (hne : p0 ≠ p)
    (hnull : hasNullSubstring p.data = false) :
    (mkStaticRoute m p0 h).matchPath p params = (false, params) := by
  unfold HttpRoute.matchPath mkStaticRoute
  simp [hne, hnull]

/-- Adding a pitfall-free static registration to a bare-option router appends
the static route and indexes it. -/
theorem add_static (R : HttpRouter) (m p : String) (h : Nat)
    (hpfx : R._pfx = "") (hmw : R.middlewares = []) (hok : staticRegOk p = true) :
    R.add m p h = Except.ok
      { R with routes := R.routes ++ [mkStaticRoute m p h],
               staticRoutes := dictInsert R.staticRoutes (m ++ p) (mkStaticRoute m p h) } := by
  have hconj := hok
  simp only [staticRegOk, Bool.and_eq_true, Bool.not_eq_true', decide_eq_true_eq] at hconj
  obtain ⟨⟨⟨⟨hhead, hlast⟩, hkeys⟩, hstarc⟩, hnull⟩ := hconj
  unfold HttpRouter.add HttpRouter.makePath HttpRouter.static
  simp [hhead, hlast, hpfx, hmw, new_static_route m p h hok, HttpRoute.isStatic, mkStaticRoute]

/-- Registering a list of pitfall-free static paths appends the corresponding
static routes and folds their index entries. -/
theorem regAll_static (regs : List (String × String × Nat)) (R : HttpRouter)
    (hpfx : R._pfx = "") (hmw : R.middlewares = [])
    (hok : ∀ r ∈ regs, staticRegOk r.2.1 = true) :
    regAll R regs = Except.ok
      { R with routes := R.routes ++ mkStaticRoutes regs,
               staticRoutes := mkStaticDict R.staticRoutes regs } := by
  induction regs generalizing R with
  | nil =>
      simp [regAll, mkStaticRoutes, mkStaticDict]
  | cons r0 rest ih =>
      obtain ⟨m, p, h⟩ := r0
      unfold regAll
      simp only [add_static R m p h hpfx hmw (hok (m, p, h) (List.mem_cons_self _ _))]
      rw [ih { R with routes := R.routes ++ [mkStaticRoute m p h],
                      staticRoutes := dictInsert R.staticRoutes (m ++ p) (mkStaticRoute m p h) }
            hpfx hmw (fun r hr => hok r (List.mem_cons_of_mem _ hr))]
      simp [mkStaticRoutes, mkStaticDict]

/-- Unfolding lemma for `mkStaticDict` on a cons cell. -/
theorem mkStaticDict_cons (d : List (String × HttpRoute)) (r0 : String × String × Nat)
    (rest : List (String × String × Nat)) :
    mkStaticDict d (r0 :: rest) =
      mkStaticDict (dictInsert d (r0.1 ++ r0.2.1) (mkStaticRoute r0.1 r0.2.1 r0.2.2)) rest := rfl

/-- Folding registrations whose keys all differ from `k` leaves the lookup of
`k` unchanged. -/
theorem mkStaticDict_lookup_notin (regs : List (String × String × Nat))
    (d : List (String × HttpRoute)) (k : String)
    (hnot : ∀ r ∈ regs, r.1 ++ r.2.1 ≠ k) :
    dictGet (mkStaticDict d regs) k = dictGet d k := by
  induction regs generalizing d with
  | nil => rfl
  | cons r0 rest ih =>
      rw [mkStaticDict_cons]
      rw [ih _ (fun r hr => hnot r (List.mem_cons_of_mem _ hr))]
      exact dictGet_dictInsert_ne d (r0.1 ++ r0.2.1) k _
        (fun hk => hnot r0 (List.mem_cons_self _ _) hk.symm)

/-- With pairwise-distinct index keys, the folded static index maps each
registration's key to its route. -/
theorem mkStaticDict_lookup (regs : List (String × String × Nat))
    (d : List (String × HttpRoute)) (m p : String) (h : Nat)
    (hmem : (m, p, h) ∈ regs)
    (hkeys : List.Pairwise (fun a b => a.1 ++ a.2.1 ≠ b.1 ++ b.2.1) regs) :
    dictGet (mkStaticDict d regs) (m ++ p) = some (mkStaticRoute m p h) := by
  induction regs generalizing d with
  | nil => cases hmem
  | cons r0 rest ih =>
      obtain ⟨m0, p0, h0⟩ := r0
      rcases List.mem_cons.mp hmem with heq | hmem'
      · simp only [Prod.mk.injEq] at heq
        obtain ⟨hm, hp, hh⟩ := heq
        subst hm; subst hp; subst hh
        rw [mkStaticDict_cons]
        rw [mkStaticDict_lookup_notin rest _ (m ++ p)
          (fun r hr => ((List.pairwise_cons.mp hkeys).1 r hr).symm)]
        exact dictGet_dictInsert_self d (m ++ p) (mkStaticRoute m p h)
      · rw [mkStaticDict_cons]
        exact ih _ hmem' (List.pairwise_cons.mp hkeys).2

/-- Unfolding lemma for the scan loop on a cons cell. -/
theorem findScan_cons (r : HttpRoute) (rs : List HttpRoute) (method path : String)
    (params : List (String × String)) :
    HttpRouter.findScan (r :: rs) method path params =
      (let res := r.matchPath path params
       if res.1 ∧ r.matchMethod method then (some r, res.2)
       else HttpRouter.findScan rs method path res.2) := rfl

/-- The linear scan over pitfall-free static routes with pairwise-distinct
paths finds the registered route under its own method and path, writing no
parameters. -/
theorem findScan_static (regs : List (String × String × Nat)) (m p : String) (h : Nat)
    (params : List (String × String))
    (hok : ∀ r ∈ regs, staticRegOk r.2.1 = true)
    (hpaths : List.Pairwise (fun a b => a.2.1 ≠ b.2.1) regs)
    (hmem : (m, p, h) ∈ regs) :
    HttpRouter.findScan (mkStaticRoutes regs) m p params = (some (mkStaticRoute m p h), params) := by
  have hnull : hasNullSubstring p.data = false := by
    have hconj := hok _ hmem
    simp only [staticRegOk, Bool.and_eq_true, Bool.not_eq_true'] at hconj
    exact hconj.2
  induction regs with
  | nil => cases hmem
  | cons r0 rest ih =>
      obtain ⟨m0, p0, h0⟩ := r0
      rcases List.mem_cons.mp hmem with heq | hmem'
      · simp only [Prod.mk.injEq] at heq
        obtain ⟨hm, hp', hh⟩ := heq
        subst hm; subst hp'; subst hh
        simp [mkStaticRoutes, findScan_cons, mkStaticRoute_matchPath_self m p h params,
          mkStaticRoute_matchMethod_self m p h]
      · have hp0 : p0 ≠ p := (List.pairwise_cons.mp hpaths).1 _ hmem'
        have hrec := ih (fun r hr => hok r (List.mem_cons_of_mem _ hr))
          (List.pairwise_cons.mp hpaths).2 hmem'
        simpa [mkStaticRoutes, findScan_cons,
          mkStaticRoute_matchPath_other m0 p0 p h0 params hp0 hnull] using hrec

/-- The method loop of `matchMethod` as a membership statement. -/
theorem methods_any_iff (l : List String) (m : String) :
    (l.any fun rM => rM == m || (rM == "GET" && m == "HEAD")) = true ↔
      (m ∈ l ∨ ("GET" ∈ l ∧ m = "HEAD")) := by
  simp only [List.any_eq_true, Bool.or_eq_true, Bool.and_eq_true, beq_iff_eq]
  constructor
  · rintro ⟨x, hx, hxm | ⟨hg, hh⟩⟩
    · exact Or.inl (hxm ▸ hx)
    · exact Or.inr ⟨hg ▸ hx, hh⟩
  · rintro (hm | ⟨hg, hh⟩)
    · exact ⟨m, hm, Or.inl rfl⟩
    · exact ⟨"GET", hg, Or.inr ⟨rfl, hh⟩⟩

/-- C1: calling `use` with a single middleware function does append the
function to the router's middleware list and to every existing route's local
middleware list, but it does not succeed silently — the source is missing a
`return` after the function branch, so the call still throws
`Expects an instance of Router or a CallableFunction for middleware.`. -/
theorem use_middleware_fn_code_bug :
    (c1router.useFn 99).1.middlewares = [99] ∧
    (c1router.useFn 99).1.routes.map HttpRoute.middlewares = [[99]] ∧
    (c1router.useFn 99).2 =
      some "Expects an instance of Router or a CallableFunction for middleware." := by
  decide

/-- C2: `use('/p', true, child)` with the merge flag set is supposed to copy
every route of every supplied router verbatim, but the source's `return`
inside the nested loops exits `mergeRouters` after the first route of the
first non-empty router: of the child's two routes `/a` and `/b`, only `/a`
arrives. -/
theorem use_merge_flag_code_bug :
    c2child.routes.map HttpRoute.path = ["/a", "/b"] ∧
    (HttpRouter.empty.useMany "/p" true [c2child]).routes.map HttpRoute.path = ["/a"] := by
  decide

/-- C3: `find` does strip exactly one trailing slash — `/items/1/` and
`/items/1` resolve to the same route and `/items/1//` resolves to nothing —
but the stripping has no exemption for the root path: `find('GET', '/')`
normalizes `/` to the empty string and returns no match even though a route
is registered at `/`, contradicting the claim (and the repository's own
`router.spec.ts`, which asserts that lookup succeeds). -/
theorem find_root_slash_code_bug :
    c3router.routes.map HttpRoute.path = ["/", "/items/1"] ∧
    (c3router.find "GET" "/items/1/" []).1 = some (mkStaticRoute "GET" "/items/1" 2) ∧
    (c3router.find "GET" "/items/1" []).1 = some (mkStaticRoute "GET" "/items/1" 2) ∧
    (c3router.find "GET" "/items/1//" []).1 = none ∧
    (c3router.find "GET" "/" []).1 = none := by
  decide

/-- C4 counterexample: the claim fails as stated.  After registering the
dynamic route `/:x` (handler 1) and then the static route `/a` (handler 2),
both for GET, `find('GET', '/a')` answers via the static index with the `/a`
route, while the forced linear scan returns the earlier `/:x` route — the
static index bypasses registration order. -/
theorem find_static_vs_scan_counterexample :
    ((regAllD c4cexRegs).find "GET" "/a" []).1.map HttpRoute.handler = some 2 ∧
    ((regAllD c4cexRegs).findLinear "GET" "/a" []).1.map HttpRoute.handler = some 1 := by
  decide

/-- C4 (amended): for router states built by `add` registrations that are all
static (no `:name`, no `*`), avoid a trailing slash and the root path, avoid
the substring `null` in any path, and have pairwise-distinct paths and
pairwise-distinct `method + path` index keys, `find(M, p)` for every
registered `(M, p)` answers via the static index with the same route the
forced linear scan returns.  (In general the two disagree: see the
counterexample, and also duplicate registrations, an earlier `GET` route
scanned for `HEAD`, or paths containing `null`.) -/
theorem find_static_consistent_amended (regs : List (String × String × Nat))
    (m p : String) (h : Nat)
    (hok : ∀ r ∈ regs, staticRegOk r.2.1 = true)
    (hkeys : List.Pairwise (fun a b => a.1 ++ a.2.1 ≠ b.1 ++ b.2.1) regs)
    (hpaths : List.Pairwise (fun a b => a.2.1 ≠ b.2.1) regs)
    (hmem : (m, p, h) ∈ regs) :
    ((regAllD regs).find m p []).1 = some (mkStaticRoute m p h) ∧
    ((regAllD regs).findLinear m p []).1 = some (mkStaticRoute m p h) := by
  have hrouter : regAllD regs =
      { routes := mkStaticRoutes regs, _pfx := "", middlewares := [],
        staticRoutes := mkStaticDict [] regs } := by
    unfold regAllD
    rw [regAll_static regs HttpRouter.empty rfl rfl hok]
    simp [HttpRouter.empty]
  have hlast : lastIsSlash p = false := by
    have hconj := hok _ hmem
    simp only [staticRegOk, Bool.and_eq_true, Bool.not_eq_true'] at hconj
    exact hconj.1.1.1.2
  constructor
  · unfold HttpRouter.find
    rw [hrouter]
    simp [hlast, mkStaticDict_lookup regs [] m p h hmem hkeys]
  · unfold HttpRouter.findLinear
    rw [hrouter]
    simp [hlast, findScan_static regs m p h [] hok hpaths hmem]

/-- Witness for the amended C4 theorem at the concrete registrations
`GET /a` (handler 1) and `POST /b` (handler 2). -/
theorem find_static_consistent_amended_witness :
    ((regAllD c4regs).find "GET" "/a" []).1 = some (mkStaticRoute "GET" "/a" 1) ∧
    ((regAllD c4regs).findLinear "GET" "/a" []).1 = some (mkStaticRoute "GET" "/a" 1) :=
  find_static_consistent_amended c4regs "GET" "/a" 1 (by decide) (by decide) (by decide)
    (by decide)

/-- C5: a static route's `match` does short-circuit to true on its exact path,
but it is not true that every other path is rejected: the route's compiled
matcher is `null`, and `path.match(null)` coerces `null` to the regex
`/null/`, so any path containing the substring `null` — here `/null` against
the static route `/id` — also matches, contradicting the claim. -/
theorem static_match_null_code_bug :
    c5route.isStatic = true ∧
    (c5route.matchPath "/id" []).1 = true ∧
    (c5route.matchPath "/xyz" []).1 = false ∧
    (c5route.matchPath "/null" []).1 = true := by
  decide

/-- C6: `matchMethod` returns true exactly when the route accepts the
wildcard method (its method list is `['*']`, which the loose comparison with
`'*'` accepts via array-to-string coercion), or the requested method is in
its method set, or the route accepts GET and the requested method is HEAD;
in particular a HEAD-only route does not match a GET request. -/
theorem matchMethod_spec :
    (∀ (r : HttpRoute) (method : String),
        r.matchMethod method = true ↔
          (r.methods = ["*"] ∨ method ∈ r.methods ∨
            ("GET" ∈ r.methods ∧ method = "HEAD"))) ∧
    (HttpRoute.new ["HEAD"] "/h" 0 []).matchMethod "GET" = false := by
  constructor
  · intro r method
    unfold HttpRoute.matchMethod
    split
    · rename_i hstar
      have hstar' : r.methods = ["*"] :=
        (joinComma_eq_star_iff r.methods).mp (by simpa using hstar)
      simp [hstar']
    · rename_i hstar
      have hne : r.methods ≠ ["*"] := by
        intro hl
        exact hstar (by rw [hl]; rfl)
      rw [methods_any_iff r.methods method]
      constructor
      · exact fun hmem => Or.inr hmem
      · rintro (hl | hmem)
        · exact absurd hl hne
        · exact hmem
  · decide

/-- C7: in a dispatcher built by `composeAsync`, a stage that invokes its
continuation a second time — here stage A calls `next()` again after the
downstream stage B and the terminal H have already run — gets the rejection
`next() called multiple times` back, the overall dispatch rejects with that
error, and the downstream stages are not executed a second time: B and H each
appear exactly once in the log, and A's post-continuation code never runs. -/
theorem compose_double_next :
    composeRun [MW.doubleNext "A", MW.simple "B"] (some "H") =
      (Except.error "next() called multiple times",
        { index := 2, log := ["A-enter", "B-enter", "H", "B-exit"] }) ∧
    (composeRun [MW.doubleNext "A", MW.simple "B"] (some "H")).2.log.count "B-enter" = 1 ∧
    (composeRun [MW.doubleNext "A", MW.simple "B"] (some "H")).2.log.count "H" = 1 :=
  ⟨rfl, by decide, by decide⟩

/-- C8: the route pattern `/users/:id/posts/:postId` records the parameter
names in capture order, matches `/users/42/posts/7` with `id = "42"` and
`postId = "7"` written to the params bag, and rejects `/users/42`. -/
theorem match_two_params :
    c8route.paramKeys = ["id", "postId"] ∧
    c8route.matchPath "/users/42/posts/7" [] = (true, [("id", "42"), ("postId", "7")]) ∧
    (c8route.matchPath "/users/42" []).1 = false := by
  decide

/-- C9: the route pattern `/files/*` compiles the `*` token to a greedy
capture that crosses slashes: `/files/a/b/c.txt` matches and the params bag
receives the single trailing capture `a/b/c.txt` (stored, since the pattern
declares no `:name` keys, under the JavaScript out-of-range key
`"undefined"`). -/
theorem match_star_wildcard :
    c9route.paramKeys = [] ∧
    c9route.isStatic = false ∧
    c9route.matchPath "/files/a/b/c.txt" [] = (true, [("undefined", "a/b/c.txt")]) := by
  decide

/-- C10: `find` evaluates a route's path match before its method match, so
the caller's params bag keeps captures written by routes that are not
returned: scanning `/b` first hits `POST /:x`, which writes `x = "b"` and then
fails the method check, before `GET /:y` matches and is returned — the final
bag holds both `x` and `y`, although the returned route's only parameter key
is `y`. -/
theorem find_params_frame_effect :
    (c10router.find "GET" "/b" []).2 = [("x", "b"), ("y", "b")] ∧
    ((c10router.find "GET" "/b" []).1.map HttpRoute.paramKeys) = some ["y"] := by
  decide

end Astad
